import Mathlib

/-!
Verification development for the language-learning chat client.

The definitions below are a shallow embedding of the client-side audio /
transcript pipeline of the repository:

* `src/components/ChatInterface.tsx` (audio utilities `createBlob`,
  `decodeAudioData`, the live-session `onmessage` handler, the playback
  scheduler, `stopRecording`, `handleGrammarCheck`, `handlePlayAudio`), and
* `src/services/geminiService.ts` (`generateScenario`, `validateGrammar`,
  `evaluatePronunciation`, `generateSpeech`).

Modelling conventions:

* Audio samples (JS `Float32Array` entries) are modelled as rationals.  All
  floating-point operations the claims touch (`x * 32768`, division by
  `32768.0`, addition of buffer durations) are exact on the inputs the
  claims quantify over, so rational arithmetic is a faithful model there.
* `Int16Array` element assignment is modelled by ECMAScript `ToInt16`:
  truncation toward zero followed by a wrap into `[-32768, 32768)`.
* Byte payloads are modelled as `List Nat` (each entry a `Uint8Array` cell,
  stored modulo 256).  The base64 transport (`btoa` / `atob`, mutually
  inverse browser builtins) is elided: `createBlobBytes` is `createBlob`
  up to (and `decode ∘`) that bijection.
* JS string truthiness: an absent field and the empty string behave alike
  in conditions; the embedding tests emptiness explicitly where the code
  tests truthiness.
-/

namespace LetsVibe

/-- Speaker role of a chat turn (`'user' | 'model'` in `types.ts`). -/
inductive Role where
  | user : Role
  | model : Role
deriving DecidableEq, Repr

/-- Grammar verdict (`Correction` in `types.ts`). -/
structure Correction where
  original : String
  corrected : String
  explanation : String
  isCorrect : Bool
deriving DecidableEq, Repr

/-- Pronunciation verdict (`PronunciationFeedback` in `types.ts`). -/
structure PronunciationFeedback where
  score : Int
  feedback : String
  issues : List String
deriving DecidableEq, Repr

/-- A conversation turn (`Message` in `types.ts`).  `audioData` holds the
byte payload (base64 layer elided). -/
structure Message where
  id : String
  role : Role
  text : String
  timestamp : Nat
  audioData : Option (List Nat) := none
  isStreaming : Bool := false
  correction : Option Correction := none
  pronunciation : Option PronunciationFeedback := none
deriving DecidableEq, Repr

/-! ### PCM encode / decode (`createBlob`, `decodeAudioData`) -/

/-- ECMAScript number-to-integer truncation (toward zero), on exact
rational values. -/
def jsTrunc (x : ℚ) : Int :=
  if 0 ≤ x then ⌊x⌋ else ⌈x⌉

/-- Wrap an integer into the signed 16-bit range, as `Int16Array`
assignment does (ECMAScript `ToInt16`). -/
def wrap16 (n : Int) : Int :=
  let m := n % 65536
  if m < 32768 then m else m - 65536

/-- One sample through `createBlob`'s `int16[i] = data[i] * 32768`. -/
def sampleToInt16 (x : ℚ) : Int :=
  wrap16 (jsTrunc (x * 32768))

/-- Little-endian byte pair of a signed 16-bit value, as reading the
`Int16Array`'s backing buffer through a `Uint8Array` yields. -/
def int16ToBytes (v : Int) : List Nat :=
  let u := (v % 65536).toNat
  [u % 256, u / 256]

/-- Reinterpret a byte list as little-endian signed 16-bit values
(`new Int16Array(data.buffer)` in `decodeAudioData`).  Each byte cell is a
`Uint8Array` entry, hence reduced mod 256.  A trailing odd byte cannot
occur on encoder output (the constructor would throw on it). -/
def bytesToInt16 : List Nat → List Int
  | b0 :: b1 :: rest =>
      (let u := b0 % 256 + 256 * (b1 % 256);
       if u < 32768 then (u : Int) else (u : Int) - 65536) :: bytesToInt16 rest
  | _ => []

/-- `createBlob` (lines 16–32 of `ChatInterface.tsx`) down to its byte
payload: scale each sample by 32768 into an `Int16Array` and serialize the
backing buffer.  The final `btoa` (external bijection) is elided. -/
def createBlobBytes (samples : List ℚ) : List Nat :=
  ((samples.map sampleToInt16).map int16ToBytes).flatten

/-- `decodeAudioData` (lines 44–61) for the mono case the component uses
(`numChannels = 1`): reinterpret the bytes as 16-bit integers and divide
by 32768.0. -/
def decodeAudioData (bytes : List Nat) : List ℚ :=
  (bytesToInt16 bytes).map (fun v : Int => (v : ℚ) / 32768)

/-- `decodeAudioData` quantization of a single sample: encode to int16 and
back to a rational sample. -/
def quantizeSample (x : ℚ) : ℚ :=
  (sampleToInt16 x : ℚ) / 32768

theorem wrap16_lb (n : Int) : -32768 ≤ wrap16 n := by
  unfold wrap16
  have h0 : 0 ≤ n % 65536 := Int.emod_nonneg n (by norm_num)
  have h1 : n % 65536 < 65536 := Int.emod_lt_of_pos n (by norm_num)
  dsimp only
  split <;> omega

theorem wrap16_ub (n : Int) : wrap16 n < 32768 := by
  unfold wrap16
  have h0 : 0 ≤ n % 65536 := Int.emod_nonneg n (by norm_num)
  have h1 : n % 65536 < 65536 := Int.emod_lt_of_pos n (by norm_num)
  dsimp only
  split <;> omega

theorem wrap16_of_range (n : Int) (h1 : -32768 ≤ n) (h2 : n < 32768) :
    wrap16 n = n := by
  unfold wrap16
  dsimp only
  omega

/-- Byte-level round trip of one in-range 16-bit value. -/
theorem bytes_roundtrip (v : Int) (rest : List Nat)
    (h1 : -32768 ≤ v) (h2 : v < 32768) :
    bytesToInt16 (int16ToBytes v ++ rest) = v :: bytesToInt16 rest := by
  show bytesToInt16 ((v % 65536).toNat % 256 :: (v % 65536).toNat / 256 :: rest)
      = v :: bytesToInt16 rest
  rw [bytesToInt16]
  dsimp only
  congr 1
  split <;> omega

/-- Encode-then-decode quantizes every sample, preserving count and
order. -/
theorem decode_createBlob (samples : List ℚ) :
    decodeAudioData (createBlobBytes samples) = samples.map quantizeSample := by
  induction samples with
  | nil => rfl
  | cons x xs ih =>
      have hrange₁ := wrap16_lb (jsTrunc (x * 32768))
      have hrange₂ := wrap16_ub (jsTrunc (x * 32768))
      have hx : createBlobBytes (x :: xs)
          = int16ToBytes (sampleToInt16 x) ++ createBlobBytes xs := by
        simp [createBlobBytes]
      simp only [decodeAudioData] at ih ⊢
      rw [hx, bytes_roundtrip (sampleToInt16 x) _ hrange₁ hrange₂,
        List.map_cons, List.map_cons, ih]
      rfl

/-- On an exactly representable sample `k / 32768` with `k` in the signed
16-bit range, `createBlob`'s scaling recovers `k` itself. -/
theorem sampleToInt16_dyadic (k : Int) (h1 : -32768 ≤ k) (h2 : k < 32768) :
    sampleToInt16 ((k : ℚ) / 32768) = k := by
  have hmul : ((k : ℚ) / 32768) * 32768 = (k : ℚ) := by
    field_simp
  unfold sampleToInt16 jsTrunc
  rw [hmul]
  by_cases hk : 0 ≤ k
  · rw [if_pos (by exact_mod_cast hk), Int.floor_intCast]
    exact wrap16_of_range k h1 h2
  · rw [if_neg (by exact_mod_cast hk), Int.ceil_intCast]
    exact wrap16_of_range k h1 h2

/-! ### Recording stop: flattening and encoding (`stopRecording`) -/

/-- The flattening loop of `stopRecording` (lines 414–421): a fresh buffer
is filled by copying each captured frame at the running offset, i.e. the
frames are appended in capture order. -/
def mergeChunks (chunks : List (List ℚ)) : List ℚ :=
  chunks.foldl (fun acc c => acc ++ c) []

theorem foldl_append_eq (chunks : List (List ℚ)) (acc : List ℚ) :
    chunks.foldl (fun a c => a ++ c) acc = acc ++ chunks.flatten := by
  induction chunks generalizing acc with
  | nil => simp
  | cons c cs ih => simp [List.foldl_cons, ih, List.append_assoc]

theorem mergeChunks_eq_flatten (chunks : List (List ℚ)) :
    mergeChunks chunks = chunks.flatten := by
  unfold mergeChunks
  rw [foldl_append_eq]
  simp

/-- Result of `stopRecording`'s audio-processing block. -/
structure RecStopResult where
  payload : Option (List Nat)
  messages : List Message
deriving DecidableEq, Repr

/-- The audio-processing block of `stopRecording` (lines 413–431): when at
least one frame was captured *and* a user-turn id is on record, flatten the
frames, encode them once (`createBlob(merged).data`), and attach the
payload to the message whose id is the stored one.  Otherwise nothing is
produced.  (Capture-pipeline teardown and the asynchronous pronunciation
call are modelled separately.) -/
def stopRecordingUpdate (chunks : List (List ℚ)) (lastUserMessageId : Option String)
    (msgs : List Message) : RecStopResult :=
  match lastUserMessageId with
  | some targetId =>
      if chunks.length > 0 then
        let merged := mergeChunks chunks
        let payload := createBlobBytes merged
        ⟨some payload,
          msgs.map (fun m => if m.id = targetId then { m with audioData := some payload } else m)⟩
      else ⟨none, msgs⟩
  | none => ⟨none, msgs⟩

/-- **C10.**  PCM encode/decode round trip: on any finite mono sample list
whose samples are all of the form `k / 32768` with `-32768 ≤ k < 32768`,
decoding the 16-bit little-endian payload produced by `createBlob` recovers
the samples exactly; and the full-scale sample `1.0` is not preserved but
wraps to `-1.0`. -/
theorem c10_pcm_roundtrip :
    (∀ samples : List ℚ,
        (∀ x ∈ samples, ∃ k : Int, -32768 ≤ k ∧ k < 32768 ∧ x = (k : ℚ) / 32768) →
        decodeAudioData (createBlobBytes samples) = samples) ∧
    decodeAudioData (createBlobBytes [(1 : ℚ)]) = [(-1 : ℚ)] := by
  constructor
  · intro samples h
    rw [decode_createBlob]
    conv_rhs => rw [← List.map_id samples]
    refine List.map_congr_left ?_
    intro x hx
    obtain ⟨k, hk1, hk2, rfl⟩ := h x hx
    simp only [quantizeSample, sampleToInt16_dyadic k hk1 hk2, id]
  · have hs : sampleToInt16 (1 : ℚ) = -32768 := by
      have h32 : jsTrunc ((1 : ℚ) * 32768) = 32768 := by
        rw [show ((1 : ℚ) * 32768) = ((32768 : Int) : ℚ) by norm_num]
        unfold jsTrunc
        rw [if_pos (by positivity), Int.floor_intCast]
      unfold sampleToInt16
      rw [h32]
      unfold wrap16
      norm_num
    have hb : createBlobBytes [(1 : ℚ)] = int16ToBytes (-32768) := by
      simp [createBlobBytes, hs]
    rw [hb]
    show decodeAudioData [0, 128] = [(-1 : ℚ)]
    have hbi : bytesToInt16 [0, 128] = [(-32768 : Int)] := by decide
    unfold decodeAudioData
    rw [hbi]
    norm_num

/-- Witness for C10: a concrete exactly representable sample list survives
the round trip. -/
theorem c10_witness :
    decodeAudioData (createBlobBytes [(1 : ℚ)/2, -(1 : ℚ)/4]) = [(1 : ℚ)/2, -(1 : ℚ)/4] := by
  refine c10_pcm_roundtrip.1 _ ?_
  intro x hx
  rcases List.mem_cons.mp hx with h | hx2
  · exact ⟨16384, by norm_num, by norm_num, by rw [h]; norm_num⟩
  · rcases List.mem_cons.mp hx2 with h | hx3
    · exact ⟨-8192, by norm_num, by norm_num, by rw [h]; norm_num⟩
    · exact absurd hx3 (List.not_mem_nil x)

/-- Counterexample to **C6** as stated: stopping a recording with a
non-empty captured-frame list produces *no* payload when no user turn was
ever opened (`lastUserMessageIdRef.current` still `null`), because the code
guards on `userAudioChunksRef.current.length > 0 && lastUserMessageIdRef.current`. -/
theorem c6_counterexample :
    (stopRecordingUpdate [[(1 : ℚ)/2]] none []).payload = none ∧
      ([[(1 : ℚ)/2]] : List (List ℚ)) ≠ [] := by
  exact ⟨rfl, by simp⟩

/-- **C6 (amended).**  When a user-turn id is on record, stopping a
recording with `N ≥ 1` captured frames yields exactly one encoded payload;
its decoded sample count is the sum of the frame sample counts, and the
decoded samples are, in capture order, the quantizations of the flattened
captured samples. -/
theorem c6_stop_encoding (chunks : List (List ℚ)) (targetId : String)
    (msgs : List Message) (hne : chunks ≠ []) :
    ∃ payload,
      (stopRecordingUpdate chunks (some targetId) msgs).payload = some payload ∧
      (decodeAudioData payload).length = (chunks.map List.length).sum ∧
      decodeAudioData payload = chunks.flatten.map quantizeSample := by
  refine ⟨createBlobBytes (mergeChunks chunks), ?_, ?_, ?_⟩
  · have hlen : 0 < chunks.length := List.length_pos.mpr hne
    simp [stopRecordingUpdate, hlen]
  · rw [decode_createBlob, mergeChunks_eq_flatten, List.length_map,
      List.length_flatten]
  · rw [decode_createBlob, mergeChunks_eq_flatten]

/-- Witness for C6 (amended) at a concrete two-frame recording. -/
theorem c6_witness :
    ([[(1 : ℚ)/2], [(1 : ℚ)/4, 0]] : List (List ℚ)) ≠ [] ∧
    ∃ payload,
      (stopRecordingUpdate [[(1 : ℚ)/2], [(1 : ℚ)/4, 0]] (some "1") []).payload
        = some payload ∧
      (decodeAudioData payload).length
        = ([[(1 : ℚ)/2], [(1 : ℚ)/4, 0]].map List.length).sum ∧
      decodeAudioData payload
        = ([[(1 : ℚ)/2], [(1 : ℚ)/4, 0]] : List (List ℚ)).flatten.map quantizeSample :=
  ⟨by simp, c6_stop_encoding [[(1 : ℚ)/2], [(1 : ℚ)/4, 0]] "1" [] (by simp)⟩

/-! ### Playback scheduler (`onmessage`, lines 224–239) -/

/-- Duration of a decoded fragment: `frameCount / sampleRate` with the
output context's fixed 24000 Hz rate and one channel. -/
def fragmentDuration (bytes : List Nat) : ℚ :=
  ((bytesToInt16 bytes).length : ℚ) / 24000

/-- One arriving audio fragment through the scheduler: play at
`max(nextStartTimeRef.current, ctx.currentTime)` and advance the cursor by
the fragment's duration.  Returns `(startTime, new cursor)`. -/
def scheduleStep (cursor clock : ℚ) (bytes : List Nat) : ℚ × ℚ :=
  let startTime := max cursor clock
  (startTime, startTime + fragmentDuration bytes)

/-- Fold the scheduler over a sequence of `(clock reading, fragment)`
pairs, collecting each fragment's `(start time, duration)` span. -/
def scheduleSpans (cursor : ℚ) : List (ℚ × List Nat) → List (ℚ × ℚ)
  | [] => []
  | f :: rest =>
      ((scheduleStep cursor f.1 f.2).1, fragmentDuration f.2)
        :: scheduleSpans (scheduleStep cursor f.1 f.2).2 rest

theorem fragmentDuration_nonneg (bytes : List Nat) : 0 ≤ fragmentDuration bytes := by
  unfold fragmentDuration
  positivity

theorem scheduleSpans_chain (cursor : ℚ) (frags : List (ℚ × List Nat)) :
    List.Chain' (fun p q : ℚ × ℚ => p.1 + p.2 ≤ q.1 ∧ p.1 ≤ q.1)
      (scheduleSpans cursor frags) ∧
    (∀ p ∈ (scheduleSpans cursor frags).head?, cursor ≤ p.1) ∧
    List.Forall₂ (fun f sp => f.1 ≤ sp.1 ∧ 0 ≤ sp.2) frags
      (scheduleSpans cursor frags) := by
  induction frags generalizing cursor with
  | nil => exact ⟨List.chain'_nil, by simp [scheduleSpans], List.Forall₂.nil⟩
  | cons f rest ih =>
      obtain ⟨hchain, hhead, hfa⟩ := ih (scheduleStep cursor f.1 f.2).2
      have hd : 0 ≤ fragmentDuration f.2 := fragmentDuration_nonneg f.2
      refine ⟨?_, ?_, ?_⟩
      · rw [scheduleSpans, List.chain'_cons']
        refine ⟨?_, hchain⟩
        intro q hq
        have hq1 := hhead q hq
        have hstep : (scheduleStep cursor f.1 f.2).2
            = (scheduleStep cursor f.1 f.2).1 + fragmentDuration f.2 := rfl
        constructor
        · rw [← hstep]; exact hq1
        · rw [hstep] at hq1; linarith
      · intro p hp
        rw [scheduleSpans] at hp
        simp only [List.head?_cons, Option.mem_def, Option.some.injEq] at hp
        rw [← hp]
        exact le_max_left _ _
      · rw [scheduleSpans]
        exact List.Forall₂.cons ⟨le_max_right _ _, hd⟩ hfa

/-- **C3.**  For every fragment sequence and any (non-decreasing) clock,
each start time is `max(cursor, clock)`, the cursor advances by the
fragment duration, and consequently the start times are non-decreasing,
each start is at least the previous start plus the previous duration (no
two fragments overlap), and each start is at least the clock reading at
its arrival. -/
theorem c3_playback_no_overlap (cursor : ℚ) (frags : List (ℚ × List Nat))
    (_hclk : List.Chain' (fun a b : ℚ => a ≤ b) (frags.map Prod.fst)) :
    List.Chain' (fun p q : ℚ × ℚ => p.1 + p.2 ≤ q.1) (scheduleSpans cursor frags) ∧
    List.Chain' (fun p q : ℚ × ℚ => p.1 ≤ q.1) (scheduleSpans cursor frags) ∧
    List.Forall₂ (fun f sp => f.1 ≤ sp.1 ∧ 0 ≤ sp.2) frags
      (scheduleSpans cursor frags) := by
  obtain ⟨hchain, _, hfa⟩ := scheduleSpans_chain cursor frags
  exact ⟨hchain.imp (fun _ _ h => h.1), hchain.imp (fun _ _ h => h.2), hfa⟩

/-- Witness for C3 at a concrete fragment sequence. -/
theorem c3_witness :
    List.Chain' (fun a b : ℚ => a ≤ b)
      (([((0 : ℚ), ([0, 0] : List Nat)), ((1 : ℚ), ([] : List Nat))]).map Prod.fst) ∧
    List.Chain' (fun p q : ℚ × ℚ => p.1 + p.2 ≤ q.1)
      (scheduleSpans 0 [((0 : ℚ), ([0, 0] : List Nat)), ((1 : ℚ), ([] : List Nat))]) := by
  have h : List.Chain' (fun a b : ℚ => a ≤ b)
      (([((0 : ℚ), ([0, 0] : List Nat)), ((1 : ℚ), ([] : List Nat))]).map Prod.fst) := by
    simp only [List.map_cons, List.map_nil, List.chain'_cons, List.chain'_singleton,
      and_true]
    norm_num
  exact ⟨h, (c3_playback_no_overlap 0 _ h).1⟩

/-! ### JS string operations used by the transcript-correlation logic -/

/-- `a.substring(0, n)` (code-unit slice; on the chat texts, a character
slice). -/
def strTake (s : String) (n : Nat) : String :=
  ⟨s.data.take n⟩

/-- JS `String.prototype.trim`: drop leading and trailing whitespace. -/
def strTrim (s : String) : String :=
  ⟨((s.data.dropWhile Char.isWhitespace).reverse.dropWhile Char.isWhitespace).reverse⟩

/-- Scan for an occurrence of `pat` starting at each suffix. -/
def strContainsAux (pat : List Char) : List Char → Bool
  | [] => pat.isEmpty
  | c :: rest => List.isPrefixOf pat (c :: rest) || strContainsAux pat rest

/-- JS `hay.includes(pat)`: substring containment. -/
def strContains (hay pat : String) : Bool :=
  strContainsAux pat.data hay.data

/-- JS `hay.startsWith(pre)` (what the spec's "starts with" would be). -/
def strStartsWith (hay pre : String) : Bool :=
  List.isPrefixOf pre.data hay.data

/-! ### The live-session inbound event handler (`onmessage`, lines 221–318) -/

/-- The fields of a `LiveServerMessage` the handler reads: an optional
inline audio payload (base64 layer elided), optional output/input
transcription fragments, and the turn-complete marker. -/
structure ServerMsg where
  audioData : Option (List Nat) := none
  outputTranscription : Option String := none
  inputTranscription : Option String := none
  turnComplete : Bool := false
deriving DecidableEq, Repr

/-- The component state the handler mutates: the message list, the two
accumulated-transcription refs, the last-opened-user-turn id, and the
playback cursor. -/
structure ChatState where
  messages : List Message := []
  currentInputTrans : String := ""
  currentOutputTrans : String := ""
  lastUserMessageId : Option String := none
  nextStartTime : ℚ := 0
deriving DecidableEq, Repr

/-- A freshly opened streaming turn (`Date.now().toString()` id). -/
def newMsg (now : Nat) (r : Role) (t : String) : Message :=
  { id := toString now, role := r, text := t, timestamp := now,
    isStreaming := true }

/-- Model-output streaming branch (lines 254–270): append to the last
message when it is a streaming model turn, else open a new streaming model
turn. -/
def applyOutputFrag (now : Nat) (t : String) (msgs : List Message) : List Message :=
  match msgs.getLast? with
  | some lastMsg =>
      if lastMsg.role = Role.model ∧ lastMsg.isStreaming = true then
        msgs.dropLast ++ [{ lastMsg with text := lastMsg.text ++ t }]
      else
        msgs ++ [newMsg now Role.model t]
  | none => msgs ++ [newMsg now Role.model t]

/-- User-input streaming branch (lines 273–291): append to the last
message when it is a streaming user turn, else open a new streaming user
turn, recording its id in `lastUserMessageIdRef`. -/
def applyInputFrag (now : Nat) (t : String) (msgs : List Message) :
    List Message × Option String :=
  match msgs.getLast? with
  | some lastMsg =>
      if lastMsg.role = Role.user ∧ lastMsg.isStreaming = true then
        (msgs.dropLast ++ [{ lastMsg with text := lastMsg.text ++ t }], none)
      else
        (msgs ++ [newMsg now Role.user t], some (toString now))
  | none => (msgs ++ [newMsg now Role.user t], some (toString now))

/-- The `setMessages` updater for transcription events (lines 249–293):
the output branch runs first and returns; the input branch runs only when
no (truthy) output fragment is present and only while recording.  Returns
the new message list and the possibly updated last-user-turn id. -/
def applyTranscripts (recording : Bool) (now : Nat)
    (outT inT : Option String) (msgs : List Message)
    (lastUid : Option String) : List Message × Option String :=
  match outT with
  | some o => (applyOutputFrag now o msgs, lastUid)
  | none =>
      match inT with
      | some i =>
          if recording then
            match applyInputFrag now i msgs with
            | (ms, some uid) => (ms, some uid)
            | (ms, none) => (ms, lastUid)
          else (msgs, lastUid)
      | none => (msgs, lastUid)

/-- JS truthiness of an optional string field: absent and `""` behave
alike in the handler's conditions. -/
def truthy (o : Option String) : Option String :=
  match o with
  | some t => if t = "" then none else some t
  | none => none

/-- One `onmessage` invocation (lines 221–318) as a state transition:
audio scheduling, then transcription-ref accumulation and the message
update, then turn-complete finalization and ref reset.  `now` is the
`Date.now()` reading, `clock` the output context's `currentTime`.  (The
asynchronous grammar trigger fired on turn-complete is modelled by
`turnCompleteGrammarCall` below; it does not change this state.) -/
def onmessageStep (recording : Bool) (now : Nat) (clock : ℚ) (m : ServerMsg)
    (s : ChatState) : ChatState :=
  let s1 : ChatState :=
    match m.audioData with
    | some bytes =>
        if bytes.isEmpty then s
        else { s with nextStartTime := (scheduleStep s.nextStartTime clock bytes).2 }
    | none => s
  let outT := truthy m.outputTranscription
  let inT := truthy m.inputTranscription
  let s2 : ChatState :=
    { s1 with
      currentInputTrans :=
        match inT with
        | some i => s1.currentInputTrans ++ i
        | none => s1.currentInputTrans,
      currentOutputTrans :=
        match outT with
        | some o => s1.currentOutputTrans ++ o
        | none => s1.currentOutputTrans }
  let s3 : ChatState :=
    if outT.isSome ∨ inT.isSome then
      let p := applyTranscripts recording now outT inT s2.messages s2.lastUserMessageId
      { s2 with messages := p.1, lastUserMessageId := p.2 }
    else s2
  if m.turnComplete then
    { s3 with
      messages := s3.messages.map
        (fun mm => if mm.isStreaming = true then { mm with isStreaming := false } else mm),
      currentInputTrans := "",
      currentOutputTrans := "" }
  else s3

/-- The `onmessage` callback's entry guard (line 222): after teardown
(`cleanup` set) the event is dropped. -/
def onmessageGuarded (cleanup recording : Bool) (now : Nat) (clock : ℚ)
    (m : ServerMsg) (s : ChatState) : ChatState :=
  if cleanup = true then s else onmessageStep recording now clock m s

/-- Fold the handler over a sequence of `(now, clock, event)` triples. -/
def runSteps (recording : Bool) (evs : List (Nat × ℚ × ServerMsg))
    (s : ChatState) : ChatState :=
  evs.foldl (fun st e => onmessageStep recording e.1 e.2.1 e.2.2 st) s

/-- All states the fold passes through, initial state included. -/
def runStates (recording : Bool) : List (Nat × ℚ × ServerMsg) → ChatState → List ChatState
  | [], s => [s]
  | e :: es, s => s :: runStates recording es (onmessageStep recording e.1 e.2.1 e.2.2 s)

/-- Number of open (streaming) turns of a role. -/
def streamCount (r : Role) (msgs : List Message) : Nat :=
  (msgs.filter (fun m => decide (m.role = r) && m.isStreaming)).length

/-! ### Turn-complete grammar correlation (lines 297–317) -/

/-- The correlation search: scan the messages from the most recent
backwards for a user turn whose text *contains* (`includes`) the first 10
characters of the completed transcript. -/
def findGrammarTarget (msgs : List Message) (userText : String) : Option Message :=
  msgs.reverse.find?
    (fun m => decide (m.role = Role.user) && strContains m.text (strTake userText 10))

/-- The grammar trigger on turn-complete (lines 302–313) combined with
`handleGrammarCheck`'s own guard (line 90): when the trimmed accumulated
user transcript is non-empty, locate the target turn; validation is then
scheduled with `(target id, trimmed text)` unless the text is shorter than
2 characters. -/
def turnCompleteGrammarCall (msgs : List Message) (inputTrans : String) :
    Option (String × String) :=
  let t := strTrim inputTrans
  if t = "" then none
  else
    match findGrammarTarget msgs t with
    | some m => if t.length < 2 then none else some (m.id, t)
    | none => none

/-! ### Annotation continuations and replay (lines 89–140, 432–439) -/

/-- The continuation of `handleGrammarCheck` (lines 93–98), run when the
`validateGrammar` call resolves: attach the correction to the message with
the remembered id when the verdict flags an error.  Note it consults no
liveness flag. -/
def grammarResultUpdate (correction : Option Correction) (msgId : String)
    (msgs : List Message) : List Message :=
  match correction with
  | some c =>
      if c.isCorrect = false then
        msgs.map (fun m => if m.id = msgId then { m with correction := some c } else m)
      else msgs
  | none => msgs

/-- The continuation of the pronunciation call in `stopRecording` (lines
433–439): attach the feedback to the message whose id was stored at
recording-stop time.  Note it consults no liveness flag either. -/
def attachPronunciation (targetId : String) (fb : PronunciationFeedback)
    (msgs : List Message) : List Message :=
  msgs.map (fun m => if m.id = targetId then { m with pronunciation := some fb } else m)

/-- What `handlePlayAudio` (lines 102–140) starts: a payload and its
sample rate. -/
inductive PlayAction where
  | play (bytes : List Nat) (sampleRate : Nat) : PlayAction
deriving DecidableEq, Repr

/-- `handlePlayAudio`: a no-op while any message is playing; otherwise
prefer the message's stored recording (16 kHz), else fall back to speech
synthesis of the text (24 kHz).  `tts` is the `generateSpeech` result.
Returns the new `playingMessageId` and the started playback, if any. -/
def handlePlayAudio (playingMessageId : Option String) (msgs : List Message)
    (msgId : String) (tts : Option (List Nat)) :
    Option String × Option PlayAction :=
  match playingMessageId with
  | some _ => (playingMessageId, none)
  | none =>
      let audioData : Option (List Nat) :=
        match (msgs.find? (fun m => m.id = msgId)).bind Message.audioData with
        | some d => if d.isEmpty then tts else some d
        | none => tts
      let sampleRate : Nat :=
        match (msgs.find? (fun m => m.id = msgId)).bind Message.audioData with
        | some d => if d.isEmpty then 24000 else 16000
        | none => 24000
      match audioData with
      | some d =>
          if d.isEmpty then (none, none)
          else (some msgId, some (PlayAction.play d sampleRate))
      | none => (none, none)

/-! ### Service wrappers (`src/services/geminiService.ts`)

The external AI request is abstracted as a `CallOutcome`: the request
either throws, or resolves with `response.text` absent, empty, or a
payload string.  `JSON.parse` (which throws on malformed input, caught by
the surrounding `try`) is abstracted as a `String → Option _` parser. -/

/-- `Scenario` from `types.ts`. -/
structure Scenario where
  title : String
  description : String
  userRole : String
  aiRole : String
  systemInstruction : String
  initialMessage : String
  location : String
deriving DecidableEq, Repr

/-- Outcome of one `ai.models.generateContent` request. -/
inductive CallOutcome where
  | throws : CallOutcome
  | success (text : Option String) : CallOutcome
deriving DecidableEq, Repr

/-- The hardcoded fallback scenario (lines 78–86 of `geminiService.ts`). -/
def fallbackScenario : Scenario :=
  { title := "Cafe Encounter"
    description := "You are ordering a coffee in a busy cafe."
    userRole := "Customer"
    aiRole := "Barista"
    location := "Cafe"
    systemInstruction := "You are a friendly female barista. Speak only in the target language. Use feminine grammatical forms."
    initialMessage := "Hello! What can I get for you today?" }

/-- The `try` body of `generateScenario` (lines 23–74): request, then
`if (!text) throw`, then `JSON.parse(text)`. -/
def generateScenarioBody (o : CallOutcome)
    (parseJson : String → Option Scenario) : Except String Scenario :=
  match o with
  | .throws => .error "request threw"
  | .success none => .error "No response from AI"
  | .success (some t) =>
      if t = "" then .error "No response from AI"
      else
        match parseJson t with
        | some s => .ok s
        | none => .error "JSON.parse threw"

/-- `generateScenario` (lines 22–88): any failure in the body is caught
and masked by the fallback scenario. -/
def generateScenario (o : CallOutcome)
    (parseJson : String → Option Scenario) : Scenario :=
  match generateScenarioBody o parseJson with
  | .ok s => s
  | .error _ => fallbackScenario

/-- `validateGrammar` (lines 102–130): `null` when the request throws,
when `response.text` is absent/empty, or when parsing throws. -/
def validateGrammar (o : CallOutcome)
    (parseJson : String → Option Correction) : Option Correction :=
  match o with
  | .throws => none
  | .success none => none
  | .success (some t) => if t = "" then none else parseJson t

/-- `evaluatePronunciation` (lines 183–222): `pcmToWav` may itself throw
(`wavOk = false`, e.g. `atob` on a malformed payload), and the request
follows the same pattern as `validateGrammar`. -/
def evaluatePronunciation (wavOk : Bool) (o : CallOutcome)
    (parseJson : String → Option PronunciationFeedback) :
    Option PronunciationFeedback :=
  if wavOk = false then none
  else
    match o with
    | .throws => none
    | .success none => none
    | .success (some t) => if t = "" then none else parseJson t

/-- `generateSpeech` (lines 233–252): the optional-chained payload with
`|| null`, and `null` when the request throws. -/
def generateSpeech (o : CallOutcome) : Option String :=
  match o with
  | .throws => none
  | .success none => none
  | .success (some d) => if d = "" then none else some d

/-- **C8.**  Scenario generation never propagates an error: on every
failure mode (request throws, no text, empty text, unparsable text) it
returns the fixed fallback scenario, whose title is "Cafe Encounter"; in
general the result is either the fallback or the successfully parsed
scenario. -/
theorem c8_scenario_fallback :
    (∀ parseJson : String → Option Scenario,
        generateScenario CallOutcome.throws parseJson = fallbackScenario ∧
        generateScenario (CallOutcome.success none) parseJson = fallbackScenario ∧
        generateScenario (CallOutcome.success (some "")) parseJson = fallbackScenario) ∧
    (∀ t : String,
        generateScenario (CallOutcome.success (some t)) (fun _ => none) = fallbackScenario) ∧
    fallbackScenario.title = "Cafe Encounter" ∧
    (∀ (o : CallOutcome) (parseJson : String → Option Scenario),
        generateScenario o parseJson = fallbackScenario ∨
        generateScenarioBody o parseJson = Except.ok (generateScenario o parseJson)) := by
  refine ⟨fun p => ⟨rfl, rfl, rfl⟩, ?_, rfl, ?_⟩
  · intro t
    by_cases h : t = "" <;> simp [generateScenario, generateScenarioBody, h]
  · intro o p
    unfold generateScenario
    cases h : generateScenarioBody o p with
    | ok s => exact Or.inr rfl
    | error e => exact Or.inl rfl

/-- **C9.**  Annotation and speech-synthesis failures degrade silently: on
every failure mode (request throws, absent/empty response, unparsable
response, WAV conversion failure) `validateGrammar`,
`evaluatePronunciation` and `generateSpeech` return `none` instead of
raising. -/
theorem c9_silent_degradation :
    (∀ parseJson : String → Option Correction,
        validateGrammar CallOutcome.throws parseJson = none ∧
        validateGrammar (CallOutcome.success none) parseJson = none ∧
        validateGrammar (CallOutcome.success (some "")) parseJson = none) ∧
    (∀ t : String, validateGrammar (CallOutcome.success (some t)) (fun _ => none) = none) ∧
    (∀ (o : CallOutcome) (parseJson : String → Option PronunciationFeedback),
        evaluatePronunciation false o parseJson = none) ∧
    (∀ parseJson : String → Option PronunciationFeedback,
        evaluatePronunciation true CallOutcome.throws parseJson = none ∧
        evaluatePronunciation true (CallOutcome.success none) parseJson = none ∧
        evaluatePronunciation true (CallOutcome.success (some "")) parseJson = none) ∧
    (∀ t : String,
        evaluatePronunciation true (CallOutcome.success (some t)) (fun _ => none) = none) ∧
    (generateSpeech CallOutcome.throws = none ∧
     generateSpeech (CallOutcome.success none) = none ∧
     generateSpeech (CallOutcome.success (some "")) = none) := by
  refine ⟨fun p => ⟨rfl, rfl, rfl⟩, ?_, fun o p => rfl, fun p => ⟨rfl, rfl, rfl⟩, ?_, rfl, rfl, rfl⟩
  · intro t
    by_cases h : t = "" <;> simp [validateGrammar, h]
  · intro t
    by_cases h : t = "" <;> simp [evaluatePronunciation, h]

/-- **C7.**  Replay is mutually exclusive and prefers the original
recording: invoking `handlePlayAudio` while any message is playing is a
no-op (state unchanged, nothing started); with no playback active it plays
the message's stored recording (16 kHz) when present, else the synthesized
speech (24 kHz). -/
theorem c7_replay_exclusive :
    (∀ (pm : Option String) (msgs : List Message) (msgId : String)
        (tts : Option (List Nat)) (x : String), pm = some x →
        handlePlayAudio pm msgs msgId tts = (pm, none)) ∧
    (∀ (msgs : List Message) (msgId : String) (tts : Option (List Nat))
        (m : Message) (d : List Nat),
        msgs.find? (fun mm => mm.id = msgId) = some m →
        m.audioData = some d → d ≠ [] →
        handlePlayAudio none msgs msgId tts
          = (some msgId, some (PlayAction.play d 16000))) ∧
    (∀ (msgs : List Message) (msgId : String) (m : Message) (d : List Nat),
        msgs.find? (fun mm => mm.id = msgId) = some m →
        m.audioData = none → d ≠ [] →
        handlePlayAudio none msgs msgId (some d)
          = (some msgId, some (PlayAction.play d 24000))) := by
  refine ⟨?_, ?_, ?_⟩
  · intro pm msgs msgId tts x hx
    subst hx
    rfl
  · intro msgs msgId tts m d hfind haud hne
    have hemp : d.isEmpty = false := by
      cases d with
      | nil => exact absurd rfl hne
      | cons a l => rfl
    simp [handlePlayAudio, hfind, haud, hemp]
  · intro msgs msgId m d hfind haud hne
    have hemp : d.isEmpty = false := by
      cases d with
      | nil => exact absurd rfl hne
      | cons a l => rfl
    simp [handlePlayAudio, hfind, haud, hemp]

/-- Witness for C7: a no-op while playing, and preference for the stored
recording, at concrete inputs. -/
theorem c7_witness :
    handlePlayAudio (some "9") [] "1" none = (some "9", none) ∧
    handlePlayAudio none [⟨"1", Role.user, "hi", 0, some [1, 2], false, none, none⟩]
        "1" none
      = (some "1", some (PlayAction.play [1, 2] 16000)) :=
  ⟨c7_replay_exclusive.1 (some "9") [] "1" none "9" rfl,
   c7_replay_exclusive.2.1 [⟨"1", Role.user, "hi", 0, some [1, 2], false, none, none⟩]
     "1" none ⟨"1", Role.user, "hi", 0, some [1, 2], false, none, none⟩ [1, 2]
     (by decide) rfl (by decide)⟩

/-- **C5.**  A pronunciation result is attached strictly by the stored
turn id: the update keeps the list length, rewrites exactly the messages
whose id equals the stored id (changing only their `pronunciation` field),
leaves every other message unchanged, and is the identity when no message
carries the id. -/
theorem c5_pronunciation_by_identity :
    ∀ (msgs : List Message) (targetId : String) (fb : PronunciationFeedback),
      (attachPronunciation targetId fb msgs).length = msgs.length ∧
      (∀ (i : Nat) (h : i < msgs.length)
          (h2 : i < (attachPronunciation targetId fb msgs).length),
          (msgs[i].id ≠ targetId → (attachPronunciation targetId fb msgs)[i] = msgs[i]) ∧
          (msgs[i].id = targetId →
            (attachPronunciation targetId fb msgs)[i]
              = { msgs[i] with pronunciation := some fb })) ∧
      ((∀ m ∈ msgs, m.id ≠ targetId) → attachPronunciation targetId fb msgs = msgs) := by
  intro msgs tid fb
  refine ⟨List.length_map _ _, ?_, ?_⟩
  · intro i h h2
    have hget : (attachPronunciation tid fb msgs)[i]
        = if msgs[i].id = tid then { msgs[i] with pronunciation := some fb }
          else msgs[i] := by
      simp [attachPronunciation]
    constructor
    · intro hne
      rw [hget, if_neg hne]
    · intro heq
      rw [hget, if_pos heq]
  · intro hall
    unfold attachPronunciation
    conv_rhs => rw [← List.map_id msgs]
    exact List.map_congr_left (fun m hm => by rw [if_neg (hall m hm)]; rfl)

/-- Witness for C5 at concrete message lists. -/
theorem c5_witness :
    (attachPronunciation "2" ⟨80, "ok", []⟩
        [⟨"1", Role.user, "hi", 0, none, false, none, none⟩,
         ⟨"2", Role.user, "yo", 1, none, false, none, none⟩]).length
      = ([⟨"1", Role.user, "hi", 0, none, false, none, none⟩,
          ⟨"2", Role.user, "yo", 1, none, false, none, none⟩] : List Message).length ∧
    attachPronunciation "9" ⟨80, "ok", []⟩
        [⟨"1", Role.user, "hi", 0, none, false, none, none⟩]
      = [⟨"1", Role.user, "hi", 0, none, false, none, none⟩] :=
  ⟨(c5_pronunciation_by_identity
      [⟨"1", Role.user, "hi", 0, none, false, none, none⟩,
       ⟨"2", Role.user, "yo", 1, none, false, none, none⟩] "2" ⟨80, "ok", []⟩).1,
   (c5_pronunciation_by_identity
      [⟨"1", Role.user, "hi", 0, none, false, none, none⟩] "9" ⟨80, "ok", []⟩).2.2
     (by decide)⟩

/-- **C4 (code bug evidence).**  The `onmessage` callback honours the
teardown flag (first conjunct), but the grammar-validation and
pronunciation continuations consult no liveness flag at all: when they
resolve after teardown they still rewrite the message state (second and
third conjuncts evaluate the continuations at a post-teardown state and
observe a change). -/
theorem c4_stale_update_after_teardown :
    (onmessageGuarded true true 5 0 { outputTranscription := some "x" }
        { messages := [⟨"1", Role.user, "helo", 0, none, false, none, none⟩] }
      = { messages := [⟨"1", Role.user, "helo", 0, none, false, none, none⟩] }) ∧
    grammarResultUpdate (some ⟨"helo", "hello", "spelling", false⟩) "1"
        [⟨"1", Role.user, "helo", 0, none, false, none, none⟩]
      ≠ [⟨"1", Role.user, "helo", 0, none, false, none, none⟩] ∧
    attachPronunciation "1" ⟨70, "ok", []⟩
        [⟨"1", Role.user, "helo", 0, none, false, none, none⟩]
      ≠ [⟨"1", Role.user, "helo", 0, none, false, none, none⟩] := by
  exact ⟨rfl, by decide, by decide⟩

theorem find?_eq_some_split {α : Type} (p : α → Bool) :
    ∀ (l : List α) (a : α), l.find? p = some a →
      ∃ l1 l2, l = l1 ++ a :: l2 ∧ p a = true ∧ ∀ x ∈ l1, p x = false := by
  intro l
  induction l with
  | nil => intro a h; simp [List.find?] at h
  | cons x xs ih =>
      intro a h
      by_cases hp : p x = true
      · rw [List.find?_cons_of_pos _ hp] at h
        obtain rfl : x = a := by injection h
        exact ⟨[], xs, rfl, hp, by simp⟩
      · rw [List.find?_cons_of_neg _ hp] at h
        obtain ⟨l1, l2, rfl, hpa, hall⟩ := ih a h
        refine ⟨x :: l1, l2, rfl, hpa, ?_⟩
        intro y hy
        rcases List.mem_cons.mp hy with rfl | hy2
        · simpa using hp
        · exact hall y hy2

/-- `find?` on the reversed list returns the *last* satisfying element:
everything after it fails the predicate. -/
theorem reverse_find?_split {α : Type} (p : α → Bool) (l : List α) (a : α)
    (h : l.reverse.find? p = some a) :
    ∃ l1 l2, l = l1 ++ a :: l2 ∧ p a = true ∧ ∀ x ∈ l2, p x = false := by
  obtain ⟨r1, r2, hsplit, hpa, hall⟩ := find?_eq_some_split p l.reverse a h
  refine ⟨r2.reverse, r1.reverse, ?_, hpa, ?_⟩
  · have hrr := congrArg List.reverse hsplit
    rw [List.reverse_reverse] at hrr
    rw [hrr]
    simp [List.reverse_append]
  · intro x hx
    exact hall x (by simpa using hx)

/-- Counterexample to **C1** as stated: the code correlates by
`text.includes(first 10 chars)`, not by "text starts with".  Here the only
user turn is selected although its text does not begin with the completed
transcript's opening characters (it merely contains them). -/
theorem c1_counterexample :
    turnCompleteGrammarCall
        [⟨"1", Role.user, "xx hello worldy", 0, none, false, none, none⟩]
        "hello world"
      = some ("1", "hello world") ∧
    strStartsWith "xx hello worldy" (strTake "hello world" 10) = false := by
  exact ⟨by decide, by decide⟩

/-- **C1 (amended).**  On turn-complete with a trimmed transcript of at
least 2 characters, grammar validation is scheduled for the trimmed text
and targeted at the most recent user turn whose text *contains* the
transcript's first 10 characters (no later user turn contains them); when
the transcript trims to fewer than 2 characters or no user turn contains
the opening characters, no validation is scheduled. -/
theorem c1_grammar_correlation :
    (∀ (msgs : List Message) (trans i t : String),
        turnCompleteGrammarCall msgs trans = some (i, t) →
        t = strTrim trans ∧ 2 ≤ t.length ∧
        ∃ l1 m l2, msgs = l1 ++ m :: l2 ∧ m.id = i ∧ m.role = Role.user ∧
          strContains m.text (strTake t 10) = true ∧
          ∀ m' ∈ l2,
            ¬(m'.role = Role.user ∧ strContains m'.text (strTake t 10) = true)) ∧
    (∀ (msgs : List Message) (trans : String),
        turnCompleteGrammarCall msgs trans = none →
        strTrim trans = "" ∨ (strTrim trans).length < 2 ∨
        ∀ m ∈ msgs,
          ¬(m.role = Role.user ∧
            strContains m.text (strTake (strTrim trans) 10) = true)) := by
  constructor
  · intro msgs trans i t h
    unfold turnCompleteGrammarCall at h
    by_cases hemp : strTrim trans = ""
    · rw [if_pos hemp] at h; exact absurd h (by simp)
    rw [if_neg hemp] at h
    cases hfind : findGrammarTarget msgs (strTrim trans) with
    | none => rw [hfind] at h; exact absurd h (by simp)
    | some m =>
        rw [hfind] at h
        dsimp only at h
        by_cases hlen : (strTrim trans).length < 2
        · rw [if_pos hlen] at h; exact absurd h (by simp)
        rw [if_neg hlen] at h
        obtain ⟨hi, ht⟩ : m.id = i ∧ strTrim trans = t := by
          simpa using h
        subst ht
        refine ⟨rfl, by omega, ?_⟩
        obtain ⟨l1, l2, hsplit, hpa, hall⟩ :=
          reverse_find?_split _ msgs m hfind
        refine ⟨l1, m, l2, hsplit, hi, ?_, ?_, ?_⟩
        · have := hpa
          simp only [Bool.and_eq_true, decide_eq_true_eq] at this
          exact this.1
        · have := hpa
          simp only [Bool.and_eq_true, decide_eq_true_eq] at this
          exact this.2
        · intro m' hm' hcontra
          have := hall m' hm'
          simp only [Bool.and_eq_true, decide_eq_true_eq] at this
          rw [hcontra.1, hcontra.2] at this
          simp at this
  · intro msgs trans h
    unfold turnCompleteGrammarCall at h
    by_cases hemp : strTrim trans = ""
    · exact Or.inl hemp
    rw [if_neg hemp] at h
    cases hfind : findGrammarTarget msgs (strTrim trans) with
    | some m =>
        rw [hfind] at h
        dsimp only at h
        by_cases hlen : (strTrim trans).length < 2
        · exact Or.inr (Or.inl hlen)
        · rw [if_neg hlen] at h; exact absurd h (by simp)
    | none =>
        refine Or.inr (Or.inr ?_)
        intro m hm hcontra
        have hnone := List.find?_eq_none.mp hfind m (by simpa using hm)
        simp only [Bool.and_eq_true, decide_eq_true_eq] at hnone
        exact hnone ⟨hcontra.1, hcontra.2⟩

/-- Witness for C1 (amended) at a concrete transcript and message list. -/
theorem c1_witness :
    "hi all" = strTrim " hi all " ∧ 2 ≤ "hi all".length ∧
    ∃ l1 m l2,
      [⟨"1", Role.user, "oh hi all yes", 0, none, false, none, none⟩]
        = l1 ++ m :: l2 ∧
      Message.id m = "1" ∧ Message.role m = Role.user ∧
      strContains (Message.text m) (strTake "hi all" 10) = true ∧
      ∀ m' ∈ l2,
        ¬(Message.role m' = Role.user ∧
          strContains (Message.text m') (strTake "hi all" 10) = true) :=
  c1_grammar_correlation.1
    [⟨"1", Role.user, "oh hi all yes", 0, none, false, none, none⟩]
    " hi all " "1" "hi all" (by decide)

/-! ### Transcript assembly (claim C2): events, blocks and invariants -/

/-- A single partial-transcript event of the given role. -/
def fragEv : Role → String → ServerMsg
  | Role.model, t => { outputTranscription := some t }
  | Role.user, t => { inputTranscription := some t }

/-- A contiguous block of fragment events of one role, each fragment with
its `Date.now()` reading and clock value. -/
def blockEvs (r : Role) (frags : List (Nat × ℚ × String)) :
    List (Nat × ℚ × ServerMsg) :=
  frags.map (fun e => (e.1, e.2.1, fragEv r e.2.2))

/-- Ordered concatenation of the fragment texts, as the incremental
`text + fragment` appends build it. -/
def concatTexts (frags : List (Nat × ℚ × String)) : String :=
  frags.foldl (fun acc e => acc ++ e.2.2) ""

theorem str_foldl_append (frags : List (Nat × ℚ × String)) :
    ∀ a : String,
      frags.foldl (fun acc e => acc ++ e.2.2) a = a ++ concatTexts frags := by
  induction frags with
  | nil => intro a; simp [concatTexts]
  | cons f rest ih =>
      intro a
      rw [List.foldl_cons, ih (a ++ f.2.2)]
      have hc : concatTexts (f :: rest) = f.2.2 ++ concatTexts rest := by
        show List.foldl (fun acc e => acc ++ e.2.2) "" (f :: rest)
            = f.2.2 ++ concatTexts rest
        rw [List.foldl_cons, ih ("" ++ f.2.2)]
        have h0 : ("" ++ f.2.2 : String) = f.2.2 := by simp
        rw [h0]
      rw [hc, String.append_assoc]

theorem concatTexts_cons (f : Nat × ℚ × String) (rest : List (Nat × ℚ × String)) :
    concatTexts (f :: rest) = f.2.2 ++ concatTexts rest := by
  show List.foldl (fun acc e => acc ++ e.2.2) "" (f :: rest) = f.2.2 ++ concatTexts rest
  rw [List.foldl_cons, str_foldl_append rest ("" ++ f.2.2)]
  have h0 : ("" ++ f.2.2 : String) = f.2.2 := by simp
  rw [h0]

theorem truthy_some {t : String} (h : t ≠ "") : truthy (some t) = some t := by
  simp [truthy, h]

theorem runSteps_nil (recording : Bool) (s : ChatState) :
    runSteps recording [] s = s := rfl

theorem runSteps_cons (recording : Bool) (e : Nat × ℚ × ServerMsg)
    (es : List (Nat × ℚ × ServerMsg)) (s : ChatState) :
    runSteps recording (e :: es) s
      = runSteps recording es (onmessageStep recording e.1 e.2.1 e.2.2 s) := rfl

theorem runSteps_append (recording : Bool) (l1 l2 : List (Nat × ℚ × ServerMsg))
    (s : ChatState) :
    runSteps recording (l1 ++ l2) s = runSteps recording l2 (runSteps recording l1 s) :=
  List.foldl_append _ _ _ _

theorem runStates_append_mem (recording : Bool) (l1 l2 : List (Nat × ℚ × ServerMsg))
    (s : ChatState) (st : ChatState)
    (h : st ∈ runStates recording (l1 ++ l2) s) :
    st ∈ runStates recording l1 s ∨
    st ∈ runStates recording l2 (runSteps recording l1 s) := by
  induction l1 generalizing s with
  | nil => exact Or.inr (by simpa using h)
  | cons e es ih =>
      rw [List.cons_append] at h
      rw [show runStates recording ((e :: (es ++ l2))) s
            = s :: runStates recording (es ++ l2)
                (onmessageStep recording e.1 e.2.1 e.2.2 s) from rfl] at h
      rcases List.mem_cons.mp h with rfl | h2
      · exact Or.inl (by
          rw [show runStates recording (e :: es) st
                = st :: runStates recording es
                    (onmessageStep recording e.1 e.2.1 e.2.2 st) from rfl]
          exact List.mem_cons_self _ _)
      · rcases ih _ h2 with h3 | h3
        · refine Or.inl ?_
          rw [show runStates recording (e :: es) s
                = s :: runStates recording es
                    (onmessageStep recording e.1 e.2.1 e.2.2 s) from rfl]
          exact List.mem_cons_of_mem _ h3
        · exact Or.inr (by rwa [runSteps_cons] )

/-- Audio-fragment events never touch the message list (they only move
the playback cursor). -/
theorem audio_msgs_invariant (recording : Bool) (now : Nat) (clock : ℚ)
    (bytes : List Nat) (s : ChatState) :
    (onmessageStep recording now clock { audioData := some bytes } s).messages
      = s.messages := by
  unfold onmessageStep
  simp only [truthy, Option.isSome_none, Bool.false_eq_true, or_self, if_false]
  split <;> rfl

/-- A fragment of role `r` arriving while the last message is an open turn
of role `r` appends to that turn. -/
theorem frag_step_open (r : Role) (now : Nat) (clock : ℚ) (t : String)
    (s : ChatState) (ms : List Message) (lastMsg : Message)
    (hmsgs : s.messages = ms ++ [lastMsg]) (hrole : lastMsg.role = r)
    (hstr : lastMsg.isStreaming = true) (ht : t ≠ "") :
    (onmessageStep true now clock (fragEv r t) s).messages
      = ms ++ [{ lastMsg with text := lastMsg.text ++ t }] := by
  cases r with
  | model =>
      simp [onmessageStep, fragEv, truthy, ht, applyTranscripts, applyOutputFrag,
        hmsgs, List.getLast?_concat, List.dropLast_concat, hrole, hstr]
  | user =>
      simp [onmessageStep, fragEv, truthy, ht, applyTranscripts, applyInputFrag,
        hmsgs, List.getLast?_concat, List.dropLast_concat, hrole, hstr]

/-- A fragment of role `r` arriving while the last message (if any) is not
an open turn of role `r` opens a new streaming turn of role `r`. -/
theorem frag_step_new (r : Role) (now : Nat) (clock : ℚ) (t : String)
    (s : ChatState)
    (hlast : ∀ lastMsg, s.messages.getLast? = some lastMsg →
        ¬(lastMsg.role = r ∧ lastMsg.isStreaming = true))
    (ht : t ≠ "") :
    (onmessageStep true now clock (fragEv r t) s).messages
      = s.messages ++ [newMsg now r t] := by
  cases r with
  | model =>
      cases hgl : s.messages.getLast? with
      | none =>
          simp [onmessageStep, fragEv, truthy, ht, applyTranscripts, applyOutputFrag,
            hgl, newMsg]
      | some lastMsg =>
          simp [onmessageStep, fragEv, truthy, ht, applyTranscripts, applyOutputFrag,
            hgl, hlast lastMsg hgl, newMsg]
  | user =>
      cases hgl : s.messages.getLast? with
      | none =>
          simp [onmessageStep, fragEv, truthy, ht, applyTranscripts, applyInputFrag,
            hgl, newMsg]
      | some lastMsg =>
          simp [onmessageStep, fragEv, truthy, ht, applyTranscripts, applyInputFrag,
            hgl, hlast lastMsg hgl, newMsg]

/-- The turn-complete event finalizes every streaming message. -/
theorem tc_step_messages (recording : Bool) (now : Nat) (clock : ℚ) (s : ChatState) :
    (onmessageStep recording now clock { turnComplete := true } s).messages
      = s.messages.map
          (fun mm => if mm.isStreaming = true then { mm with isStreaming := false } else mm) := by
  rfl

/-- Folding a block of same-role fragments over a state whose last message
is an open turn of that role appends every fragment to that turn; every
intermediate state still ends in a single open turn of that role. -/
theorem runBlockOpen (r : Role) :
    ∀ (frags : List (Nat × ℚ × String)) (s : ChatState) (ms : List Message)
      (lastMsg : Message),
      (∀ e ∈ frags, e.2.2 ≠ "") →
      s.messages = ms ++ [lastMsg] → lastMsg.role = r → lastMsg.isStreaming = true →
      (runSteps true (blockEvs r frags) s).messages
        = ms ++ [{ lastMsg with text := lastMsg.text ++ concatTexts frags }] ∧
      ∀ st ∈ runStates true (blockEvs r frags) s,
        ∃ mm, st.messages = ms ++ [mm] ∧ mm.role = r ∧ mm.isStreaming = true := by
  intro frags
  induction frags with
  | nil =>
      intro s ms lastMsg hts hmsgs hrole hstr
      constructor
      · show s.messages = _
        rw [hmsgs]
        have h0 : lastMsg.text ++ concatTexts [] = lastMsg.text := by
          show lastMsg.text ++ "" = lastMsg.text
          simp
        rw [h0]
      · intro st hst
        have hs : st = s := by
          simpa [blockEvs, runStates] using hst
        subst hs
        exact ⟨lastMsg, hmsgs, hrole, hstr⟩
  | cons f rest ih =>
      intro s ms lastMsg hts hmsgs hrole hstr
      have ht : f.2.2 ≠ "" := hts f (List.mem_cons_self _ _)
      have hstep := frag_step_open r f.1 f.2.1 f.2.2 s ms lastMsg hmsgs hrole hstr ht
      have hts' : ∀ e ∈ rest, e.2.2 ≠ "" := fun e he => hts e (List.mem_cons_of_mem _ he)
      obtain ⟨hfin, hint⟩ :=
        ih (onmessageStep true f.1 f.2.1 (fragEv r f.2.2) s) ms
          { lastMsg with text := lastMsg.text ++ f.2.2 } hts' hstep hrole hstr
      constructor
      · rw [show blockEvs r (f :: rest)
              = (f.1, f.2.1, fragEv r f.2.2) :: blockEvs r rest from rfl,
          runSteps_cons, hfin, concatTexts_cons, ← String.append_assoc]
      · intro st hst
        rw [show blockEvs r (f :: rest)
              = (f.1, f.2.1, fragEv r f.2.2) :: blockEvs r rest from rfl] at hst
        rw [show runStates true ((f.1, f.2.1, fragEv r f.2.2) :: blockEvs r rest) s
              = s :: runStates true (blockEvs r rest)
                  (onmessageStep true f.1 f.2.1 (fragEv r f.2.2) s) from rfl] at hst
        rcases List.mem_cons.mp hst with rfl | h2
        · exact ⟨lastMsg, hmsgs, hrole, hstr⟩
        · exact hint st h2

/-- Folding a non-empty block of same-role fragments over a state whose
last message is not an open turn of that role opens exactly one new
streaming turn carrying the concatenated fragment texts; every
intermediate state is the original list or the original list plus that one
open turn. -/
theorem runBlockNew (r : Role) (frags : List (Nat × ℚ × String)) (s : ChatState)
    (hne : frags ≠ []) (hts : ∀ e ∈ frags, e.2.2 ≠ "")
    (hlast : ∀ lastMsg, s.messages.getLast? = some lastMsg →
        ¬(lastMsg.role = r ∧ lastMsg.isStreaming = true)) :
    (∃ mm, (runSteps true (blockEvs r frags) s).messages = s.messages ++ [mm] ∧
        mm.role = r ∧ mm.isStreaming = true ∧ mm.text = concatTexts frags) ∧
    ∀ st ∈ runStates true (blockEvs r frags) s,
      st.messages = s.messages ∨
      ∃ mm, st.messages = s.messages ++ [mm] ∧ mm.role = r ∧ mm.isStreaming = true := by
  cases frags with
  | nil => exact absurd rfl hne
  | cons f rest =>
      have ht : f.2.2 ≠ "" := hts f (List.mem_cons_self _ _)
      have hstep := frag_step_new r f.1 f.2.1 f.2.2 s hlast ht
      have hts' : ∀ e ∈ rest, e.2.2 ≠ "" := fun e he => hts e (List.mem_cons_of_mem _ he)
      obtain ⟨hfin, hint⟩ :=
        runBlockOpen r rest (onmessageStep true f.1 f.2.1 (fragEv r f.2.2) s)
          s.messages (newMsg f.1 r f.2.2) hts' hstep rfl rfl
      constructor
      · refine ⟨{ newMsg f.1 r f.2.2 with
            text := (newMsg f.1 r f.2.2).text ++ concatTexts rest }, ?_, rfl, rfl, ?_⟩
        · rw [show blockEvs r (f :: rest)
                = (f.1, f.2.1, fragEv r f.2.2) :: blockEvs r rest from rfl,
            runSteps_cons]
          exact hfin
        · show (newMsg f.1 r f.2.2).text ++ concatTexts rest = concatTexts (f :: rest)
          rw [concatTexts_cons]
          rfl
      · intro st hst
        rw [show blockEvs r (f :: rest)
              = (f.1, f.2.1, fragEv r f.2.2) :: blockEvs r rest from rfl] at hst
        rw [show runStates true ((f.1, f.2.1, fragEv r f.2.2) :: blockEvs r rest) s
              = s :: runStates true (blockEvs r rest)
                  (onmessageStep true f.1 f.2.1 (fragEv r f.2.2) s) from rfl] at hst
        rcases List.mem_cons.mp hst with rfl | h2
        · exact Or.inl rfl
        · obtain ⟨mm, hmm, hr2, hs2⟩ := hint st h2
          exact Or.inr ⟨mm, hmm, hr2, hs2⟩

theorem streamCount_append (r : Role) (l1 l2 : List Message) :
    streamCount r (l1 ++ l2) = streamCount r l1 + streamCount r l2 := by
  simp [streamCount, List.filter_append]

theorem streamCount_zero (r : Role) (l : List Message)
    (h : ∀ m ∈ l, m.isStreaming = false) : streamCount r l = 0 := by
  unfold streamCount
  have hf : l.filter (fun m => decide (m.role = r) && m.isStreaming) = [] := by
    rw [List.filter_eq_nil_iff]
    intro m hm
    simp [h m hm]
  rw [hf]
  rfl

theorem streamCount_single_le (r : Role) (m : Message) : streamCount r [m] ≤ 1 := by
  unfold streamCount
  simp only [List.filter]
  split <;> simp

theorem streamCount_single_ne (r : Role) (m : Message) (h : ¬ m.role = r) :
    streamCount r [m] = 0 := by
  unfold streamCount
  simp [List.filter, h]

theorem streamCount_pair_le (r r1 r2 : Role) (hne : r1 ≠ r2) (a b : Message)
    (ha : a.role = r1) (hb : b.role = r2) : streamCount r [a, b] ≤ 1 := by
  have h2 : ([a, b] : List Message) = [a] ++ [b] := rfl
  rw [h2, streamCount_append]
  by_cases hr : r1 = r
  · have hbne : ¬ b.role = r := by
      rw [hb]
      intro hc
      exact hne (by rw [hr, hc])
    rw [streamCount_single_ne r b hbne]
    have := streamCount_single_le r a
    omega
  · have hane : ¬ a.role = r := by
      rw [ha]
      exact hr
    rw [streamCount_single_ne r a hane]
    have := streamCount_single_le r b
    omega

theorem finalize_map_id (l : List Message) (h : ∀ m ∈ l, m.isStreaming = false) :
    l.map (fun mm => if mm.isStreaming = true then { mm with isStreaming := false } else mm)
      = l := by
  conv_rhs => rw [← List.map_id l]
  refine List.map_congr_left (fun m hm => ?_)
  rw [if_neg (by simp [h m hm])]
  rfl

theorem streamCount_finalized (r : Role) (l : List Message) :
    streamCount r
      (l.map (fun mm => if mm.isStreaming = true then { mm with isStreaming := false } else mm))
      = 0 := by
  apply streamCount_zero
  intro m hm
  obtain ⟨m0, hm0, rfl⟩ := List.mem_map.mp hm
  cases hb : m0.isStreaming with
  | true => simp
  | false => simpa using hb

/-- Counterexample to **C2** as stated: with fragments of the two roles
interleaved (model "a", user "u" while recording, model "b"), the handler
opens a *second* streaming model turn — after the third event two model
turns are open simultaneously, refuting "at most one open turn per role at
every intermediate state".  The second conjunct places that state on the
trajectory of the full sequence ending in a turn-complete marker. -/
theorem c2_counterexample :
    streamCount Role.model
        (runSteps true
          [(1, 0, { outputTranscription := some "a" }),
           (2, 0, { inputTranscription := some "u" }),
           (3, 0, { outputTranscription := some "b" })]
          ({} : ChatState)).messages
      = 2 ∧
    runSteps true
        [(1, 0, { outputTranscription := some "a" }),
         (2, 0, { inputTranscription := some "u" }),
         (3, 0, { outputTranscription := some "b" })] ({} : ChatState)
      ∈ runStates true
          [(1, 0, { outputTranscription := some "a" }),
           (2, 0, { inputTranscription := some "u" }),
           (3, 0, { outputTranscription := some "b" }),
           (4, 0, { turnComplete := true })] ({} : ChatState) := by
  exact ⟨by decide, by decide⟩

/-- **C2 (amended).**  Audio fragments never touch the message list; and
for a turn window in which each role's (non-empty) fragments arrive as one
contiguous block, starting from a state with no open turns: the window
followed by a turn-complete marker produces exactly one finalized turn per
block whose text is the ordered concatenation of that block's fragments,
and at every intermediate state at most one turn per role is open. -/
theorem c2_transcript_assembly (r1 r2 : Role) (hr : r1 ≠ r2)
    (frags1 frags2 : List (Nat × ℚ × String))
    (h1 : frags1 ≠ []) (h2 : frags2 ≠ [])
    (ht1 : ∀ e ∈ frags1, e.2.2 ≠ "") (ht2 : ∀ e ∈ frags2, e.2.2 ≠ "")
    (tcn : Nat) (tcc : ℚ) (s0 : ChatState)
    (hns : ∀ m ∈ s0.messages, m.isStreaming = false) :
    (∀ (recording : Bool) (now : Nat) (clock : ℚ) (bytes : List Nat) (s : ChatState),
        (onmessageStep recording now clock { audioData := some bytes } s).messages
          = s.messages) ∧
    (∃ m1 m2,
        (runSteps true
            (blockEvs r1 frags1 ++ blockEvs r2 frags2
              ++ [(tcn, tcc, { turnComplete := true })]) s0).messages
          = s0.messages ++ [m1, m2] ∧
        m1.role = r1 ∧ m1.text = concatTexts frags1 ∧ m1.isStreaming = false ∧
        m2.role = r2 ∧ m2.text = concatTexts frags2 ∧ m2.isStreaming = false) ∧
    (∀ st ∈ runStates true
          (blockEvs r1 frags1 ++ blockEvs r2 frags2
            ++ [(tcn, tcc, { turnComplete := true })]) s0,
        ∀ r, streamCount r st.messages ≤ 1) := by
  have hlast0 : ∀ lastMsg, s0.messages.getLast? = some lastMsg →
      ¬(lastMsg.role = r1 ∧ lastMsg.isStreaming = true) := by
    intro lastMsg hgl hc
    have hf := hns lastMsg (List.mem_of_getLast?_eq_some hgl)
    rw [hc.2] at hf
    exact absurd hf (by simp)
  obtain ⟨⟨m1', hS1, hrole1, hstr1, htext1⟩, hint1⟩ :=
    runBlockNew r1 frags1 s0 h1 ht1 hlast0
  have hlast1 : ∀ lastMsg,
      (runSteps true (blockEvs r1 frags1) s0).messages.getLast? = some lastMsg →
      ¬(lastMsg.role = r2 ∧ lastMsg.isStreaming = true) := by
    intro lastMsg hgl hc
    rw [hS1, List.getLast?_concat] at hgl
    obtain rfl : m1' = lastMsg := by injection hgl
    rw [hrole1] at hc
    exact hr hc.1
  obtain ⟨⟨m2', hS2, hrole2, hstr2, htext2⟩, hint2⟩ :=
    runBlockNew r2 frags2 (runSteps true (blockEvs r1 frags1) s0) h2 ht2 hlast1
  have hS2full : (runSteps true (blockEvs r1 frags1 ++ blockEvs r2 frags2) s0).messages
      = (s0.messages ++ [m1']) ++ [m2'] := by
    rw [runSteps_append, hS2, hS1]
  have hfull : runSteps true
      (blockEvs r1 frags1 ++ blockEvs r2 frags2
        ++ [(tcn, tcc, { turnComplete := true })]) s0
      = onmessageStep true tcn tcc { turnComplete := true }
          (runSteps true (blockEvs r1 frags1 ++ blockEvs r2 frags2) s0) := by
    rw [runSteps_append]
    rfl
  refine ⟨audio_msgs_invariant, ?_, ?_⟩
  · refine ⟨{ m1' with isStreaming := false }, { m2' with isStreaming := false },
      ?_, hrole1, htext1, rfl, hrole2, htext2, rfl⟩
    rw [hfull, tc_step_messages, hS2full, List.map_append, List.map_append,
      finalize_map_id s0.messages hns]
    simp [hstr1, hstr2]
  · intro st hst r
    rcases runStates_append_mem true
        (blockEvs r1 frags1 ++ blockEvs r2 frags2)
        [(tcn, tcc, { turnComplete := true })] s0 st hst with hA | hB
    · rcases runStates_append_mem true (blockEvs r1 frags1) (blockEvs r2 frags2)
          s0 st hA with hA1 | hA2
      · rcases hint1 st hA1 with hmsgs | ⟨mm, hmsgs, hrm, hsm⟩
        · rw [hmsgs, streamCount_zero r s0.messages hns]
          omega
        · rw [hmsgs, streamCount_append, streamCount_zero r s0.messages hns]
          have := streamCount_single_le r mm
          omega
      · rcases hint2 st hA2 with hmsgs | ⟨mm, hmsgs, hrm, hsm⟩
        · rw [hmsgs, hS1, streamCount_append, streamCount_zero r s0.messages hns]
          have := streamCount_single_le r m1'
          omega
        · rw [hmsgs, hS1, List.append_assoc, streamCount_append,
            streamCount_zero r s0.messages hns]
          have := streamCount_pair_le r r1 r2 hr m1' mm hrole1 hrm
          have hpair : ([m1'] ++ [mm] : List Message) = [m1', mm] := rfl
          rw [hpair]
          omega
    · rw [show runStates true [(tcn, tcc, ({ turnComplete := true } : ServerMsg))]
            (runSteps true (blockEvs r1 frags1 ++ blockEvs r2 frags2) s0)
          = [runSteps true (blockEvs r1 frags1 ++ blockEvs r2 frags2) s0,
             onmessageStep true tcn tcc { turnComplete := true }
               (runSteps true (blockEvs r1 frags1 ++ blockEvs r2 frags2) s0)]
          from rfl] at hB
      rcases List.mem_cons.mp hB with rfl | hB2
      · rw [hS2full, List.append_assoc, streamCount_append,
          streamCount_zero r s0.messages hns]
        have := streamCount_pair_le r r1 r2 hr m1' m2' hrole1 hrole2
        have hpair : ([m1'] ++ [m2'] : List Message) = [m1', m2'] := rfl
        rw [hpair]
        omega
      · rcases List.mem_cons.mp hB2 with rfl | hB3
        · rw [tc_step_messages, streamCount_finalized]
          omega
        · exact absurd hB3 (List.not_mem_nil st)

/-- Witness for C2 (amended) at a concrete one-fragment-per-role window. -/
theorem c2_witness :
    ∃ m1 m2,
      (runSteps true
          (blockEvs Role.model [(1, 0, "a")] ++ blockEvs Role.user [(2, 0, "u")]
            ++ [(3, 0, { turnComplete := true })]) ({} : ChatState)).messages
        = ({} : ChatState).messages ++ [m1, m2] ∧
      m1.role = Role.model ∧ m1.text = concatTexts [(1, 0, "a")] ∧
      m1.isStreaming = false ∧
      m2.role = Role.user ∧ m2.text = concatTexts [(2, 0, "u")] ∧
      m2.isStreaming = false :=
  (c2_transcript_assembly Role.model Role.user (by decide)
    [(1, 0, "a")] [(2, 0, "u")] (by simp) (by simp) (by decide) (by decide)
    3 0 ({} : ChatState) (by simp)).2.1

end LetsVibe
